import Mathlib

/-!
Shallow embedding of the regional earthquake-risk analysis pipeline of
`Deprem_Analiz` (src/main.py) and proofs about it.

Numeric values (magnitudes, depths, probabilities, risk percentages) are
modelled as rationals; Python `statistics.mean` computes the exact
arithmetic mean via `Fraction`, so rational arithmetic is faithful here.
The remote catalog (HTTP GET in `Worker.fetch_events`) is modelled as an
oracle `http : Option BBox → Except String (List RawFeature)` mapping a
bounding box (`none` meaning the nationwide `TURKEY_BBOX` default) to
either the parsed JSON feature list or a raised transport error.
-/

namespace DepremAnaliz

/-- A raw GeoJSON feature of the catalog response: `properties.mag` may be
absent (`props.get('mag')`), `properties.time` is epoch milliseconds and
is accessed unconditionally (`props['time']`), `geometry.coordinates` is a
list of arbitrary length, and the ancillary fields `nst`, `gap`, `dmin`,
`rms` may each be absent (`props.get(..., default)`). -/
structure RawFeature where
  mag : Option ℚ
  time : ℤ
  coords : List ℚ
  nst : Option ℚ
  gap : Option ℚ
  dmin : Option ℚ
  rms : Option ℚ
deriving DecidableEq, Repr

/-- One parsed seismic event (the dict built in
`Worker.parse_earthquake_data`, src/main.py lines 112-120). `time` is the
UTC timestamp in seconds, from `datetime.utcfromtimestamp(props['time'] / 1000)`. -/
structure Event where
  time : ℚ
  mag : ℚ
  depth : ℚ
  nst : ℚ
  gap : ℚ
  dmin : ℚ
  rms : ℚ
deriving DecidableEq, Repr

/-- The per-feature body of the loop in `Worker.parse_earthquake_data`
(src/main.py lines 108-120): a feature yields an event exactly when
`props.get('mag') is not None and len(coords) >= 3`; otherwise it is
skipped. -/
def parseFeature (f : RawFeature) : Option Event :=
  match f.mag with
  | none => none
  | some m =>
    if h : 3 ≤ f.coords.length then
      some { time := (f.time : ℚ) / 1000
             mag := m
             depth := f.coords.get ⟨2, by omega⟩
             nst := f.nst.getD 0
             gap := f.gap.getD 0
             dmin := f.dmin.getD 0
             rms := f.rms.getD 0 }
    else none

/-- `Worker.parse_earthquake_data` (src/main.py lines 106-121): keep the
events of the well-formed features, silently skipping the rest. -/
def parse_earthquake_data (features : List RawFeature) : List Event :=
  features.filterMap parseFeature

/-- Arithmetic mean, the semantics of `statistics.mean` for the
non-empty lists on which the code calls it. -/
def mean (xs : List ℚ) : ℚ := xs.sum / xs.length

/-- The fixed-order feature row `features_df` built in
`Worker.predict_risk` with columns `training_features =
['mag', 'depth', 'nst', 'gap', 'dmin', 'rms']` (src/main.py line 126). -/
structure FeatureVector where
  mag : ℚ
  depth : ℚ
  nst : ℚ
  gap : ℚ
  dmin : ℚ
  rms : ℚ
deriving DecidableEq, Repr

/-- The column order of `features_df`, i.e. the order of
`training_features` (src/main.py lines 126 and 133). -/
def FeatureVector.toList (v : FeatureVector) : List ℚ :=
  [v.mag, v.depth, v.nst, v.gap, v.dmin, v.rms]

/-- The feature-aggregation step of `Worker.predict_risk`
(src/main.py lines 126-133): the per-field mean over the event list, in
`training_features` order. (On a typed `Event` every field is present, so
the `ValueError` branch of line 132 is unreachable.) -/
def aggregate (events : List Event) : FeatureVector :=
  { mag := mean (events.map Event.mag)
    depth := mean (events.map Event.depth)
    nst := mean (events.map Event.nst)
    gap := mean (events.map Event.gap)
    dmin := mean (events.map Event.dmin)
    rms := mean (events.map Event.rms) }

/-- `Worker.predict_risk` (src/main.py lines 123-134). The pretrained
classifier is the oracle `model : FeatureVector → ℚ`, standing for
`self.model.predict_proba(features_df)[0][1]` (the probability of the
positive class). An empty event list returns `0.0` at line 125. -/
def predict_risk (model : FeatureVector → ℚ) (events : List Event) : ℚ :=
  if events.isEmpty then 0 else model (aggregate events) * 100

/-- A bounding box, as the dict built from `row.geometry.bounds` in
`Worker.run` (src/main.py lines 77-83) or the constant `TURKEY_BBOX`. -/
structure BBox where
  minlatitude : ℚ
  maxlatitude : ℚ
  minlongitude : ℚ
  maxlongitude : ℚ
deriving DecidableEq, Repr

/-- One row of the `provinces` GeoDataFrame: its `NAME_1` name, the
bounding box derived from its geometry, and its `risk` column value
(absent until a run's `provs['risk'] = risks` assignment). -/
structure Region where
  name : String
  bbox : BBox
  risk : Option ℚ
deriving DecidableEq, Repr

/-- One emission on the worker's outcome signals: `result(proba, events,
provinces)` on `self.result` (src/main.py line 88) or `error(msg)` on
`self.error` (lines 67 and 90). -/
inductive Outcome where
  | result (proba : ℚ) (events : List Event) (provinces : List Region)
  | error (msg : String)
deriving DecidableEq, Repr

/-- `Worker.fetch_events` (src/main.py lines 94-104): one catalog request
for the given bounding box (`none` = the nationwide `TURKEY_BBOX`
default of line 101), then parsing. `requests.get` / `raise_for_status`
failures are the `Except.error` case of the `http` oracle. -/
def fetch_events (http : Option BBox → Except String (List RawFeature))
    (bbox : Option BBox) : Except String (List Event) :=
  (http bbox).map parse_earthquake_data

/-- The per-province loop of `Worker.run` (src/main.py lines 76-85):
fetch each province's events and append `predict_risk(evs) if evs else
0.0`; an exception from any iteration propagates out of the loop. -/
def computeRisks (http : Option BBox → Except String (List RawFeature))
    (model : FeatureVector → ℚ) : List Region → Except String (List ℚ)
  | [] => Except.ok []
  | r :: rs => do
    let evs ← fetch_events http (some r.bbox)
    let rest ← computeRisks http model rs
    pure ((if evs.isEmpty then 0 else predict_risk model evs) :: rest)

/-- The column assignment `provs['risk'] = risks` (src/main.py line 86)
on the copied frame. -/
def setRisks (regions : List Region) (risks : List ℚ) : List Region :=
  List.zipWith (fun r x => { r with risk := some x }) regions risks

/-- `Worker.run` (src/main.py lines 63-92). Returns the list of outcome
emissions (on `self.result` / `self.error`) together with the final value
of the shared `self.provinces`: line 74 works on `self.provinces.copy()`
and no statement of the method writes to `self.provinces`, so every
branch returns the shared frame unchanged. Any exception inside the
`try` block (a nationwide or per-province fetch failure) is caught at
line 89 and emitted as a single `Hesaplama hatası` error. -/
def Worker.run (http : Option BBox → Except String (List RawFeature))
    (model : FeatureVector → ℚ) (provinces : List Region) :
    List Outcome × List Region :=
  match fetch_events http none with
  | Except.error e => ([Outcome.error ("Hesaplama hatası: " ++ e)], provinces)
  | Except.ok events =>
    if events.isEmpty then
      ([Outcome.error "Belirtilen aralıkta deprem verisi bulunamadı."], provinces)
    else
      let proba := predict_risk model events
      match computeRisks http model provinces with
      | Except.error e => ([Outcome.error ("Hesaplama hatası: " ++ e)], provinces)
      | Except.ok risks =>
        ([Outcome.result proba events (setRisks provinces risks)], provinces)

/-! ### The coordinator's start/finish state (src/main.py lines 186-189,
258-285, 287-307)

`EarlyWarningApp` holds the enabled flag of the analyze button and the
set of worker threads in flight. `start_analysis` (lines 258-285)
unconditionally disables the button and starts one more worker thread;
it is connected both to the button's `clicked` signal (line 226, which a
disabled button never fires) and to the 10-minute `QTimer` timeout
(line 188, which fires regardless of the button state).
`handle_results` / `handle_error` re-enable the button when a worker
finishes. -/

/-- The coordinator state: the analyze button's enabled flag and the
number of worker threads currently running. -/
structure AppState where
  analyzeBtnEnabled : Bool
  runningWorkers : ℕ
deriving DecidableEq, Repr

/-- The state after `EarlyWarningApp.__init__`: button enabled, no run
in flight. -/
def initState : AppState := { analyzeBtnEnabled := true, runningWorkers := 0 }

/-- `EarlyWarningApp.start_analysis` (src/main.py lines 258-285):
`self.analyze_btn.setEnabled(False)`, then build a fresh `Worker` and
`QThread` and start it. There is no check of any running/idle state. -/
def start_analysis (s : AppState) : AppState :=
  { analyzeBtnEnabled := false, runningWorkers := s.runningWorkers + 1 }

/-- The three external stimuli of the coordinator. -/
inductive UiEvent where
  | click
  | timerTick
  | workerDone
deriving DecidableEq, Repr

/-- One stimulus step: a button click reaches `start_analysis` only while
the button is enabled (a disabled `QPushButton` emits no `clicked`
signal); the `QTimer` timeout (line 188) always calls `start_analysis`;
a finishing worker re-enables the button via `handle_results` /
`handle_error` (lines 302 and 307). -/
def step (s : AppState) : UiEvent → AppState
  | UiEvent.click => if s.analyzeBtnEnabled then start_analysis s else s
  | UiEvent.timerTick => start_analysis s
  | UiEvent.workerDone =>
    { analyzeBtnEnabled := true, runningWorkers := s.runningWorkers - 1 }

/-! ### Concrete fixtures for counterexamples and witnesses -/

/-- A well-formed raw catalog feature (all fields present). -/
def rawFull : RawFeature :=
  { mag := some 5, time := 1700000000000, coords := [37, 38, 10]
    nst := some 4, gap := some 90, dmin := some 1, rms := some (1/2) }

/-- The event `rawFull` parses to. -/
def evFull : Event :=
  { time := 1700000000, mag := 5, depth := 10, nst := 4, gap := 90
    dmin := 1, rms := 1/2 }

/-- A raw feature whose ancillary fields `nst`, `gap`, `dmin`, `rms` are
all absent, while `mag` and a 3-component coordinate are present. -/
def rawBare : RawFeature :=
  { mag := some 3, time := 1600000000000, coords := [30, 40, 7]
    nst := none, gap := none, dmin := none, rms := none }

/-- A classifier oracle that always reports probability 1/2. -/
def constModel : FeatureVector → ℚ := fun _ => 1/2

/-- Bounding box of the first demo province. -/
def bboxA : BBox := { minlatitude := 36, maxlatitude := 37, minlongitude := 26, maxlongitude := 27 }

/-- Bounding box of the second demo province. -/
def bboxB : BBox := { minlatitude := 38, maxlatitude := 39, minlongitude := 30, maxlongitude := 31 }

/-- Bounding box of the third demo province. -/
def bboxC : BBox := { minlatitude := 40, maxlatitude := 41, minlongitude := 33, maxlongitude := 34 }

/-- First demo province, risk not yet set. -/
def regionA : Region := { name := "Adana", bbox := bboxA, risk := none }

/-- Second demo province, risk not yet set. -/
def regionB : Region := { name := "Bursa", bbox := bboxB, risk := none }

/-- Third demo province, risk not yet set. -/
def regionC : Region := { name := "Corum", bbox := bboxC, risk := none }

/-- The event `rawBare` parses to: the absent ancillary fields default
to 0. -/
def evBare : Event :=
  { time := 1600000000, mag := 3, depth := 7, nst := 0, gap := 0, dmin := 0, rms := 0 }

/-- A raw feature lacking only `nst`; the other ancillary fields are
present. -/
def rawNoNst : RawFeature :=
  { mag := some 6, time := 1500000000000, coords := [28, 41, 12]
    nst := none, gap := some 45, dmin := some 2, rms := some 1 }

/-- A well-formed raw feature with timestamp 0, for run-level fixtures. -/
def rawZero : RawFeature :=
  { mag := some 4, time := 0, coords := [37, 38, 10]
    nst := some 2, gap := some 90, dmin := some 1, rms := some 1 }

/-- The event `rawZero` parses to. -/
def evZero : Event :=
  { time := 0, mag := 4, depth := 10, nst := 2, gap := 90, dmin := 1, rms := 1 }

/-- A catalog oracle whose request for `bboxA` raises a transport error
while every other request (the nationwide one included) succeeds with
one well-formed feature. -/
def httpFailA : Option BBox → Except String (List RawFeature)
  | none => Except.ok [rawZero]
  | some b => if b = bboxA then Except.error "timeout" else Except.ok [rawZero]

/-- A catalog oracle whose request for `bboxB` raises a transport error
while every other request succeeds with one well-formed feature. -/
def httpFailB : Option BBox → Except String (List RawFeature)
  | none => Except.ok [rawZero]
  | some b => if b = bboxB then Except.error "down" else Except.ok [rawZero]

/-- A catalog oracle for which every request succeeds with one
well-formed feature. -/
def httpAllOk : Option BBox → Except String (List RawFeature) :=
  fun _ => Except.ok [rawZero]

/-- A catalog oracle for which every request succeeds, but the request
for `bboxB` finds no events. -/
def httpMixed : Option BBox → Except String (List RawFeature)
  | none => Except.ok [rawZero]
  | some b => if b = bboxB then Except.ok [] else Except.ok [rawZero]

/-! ## Helper lemmas -/

/-- If some region's catalog request raises, the per-province loop of
`Worker.run` raises: the first failing iteration's exception propagates
out of the loop. -/
theorem computeRisks_error_of_failing_region
    (http : Option BBox → Except String (List RawFeature))
    (model : FeatureVector → ℚ) (regions : List Region)
    (h : ∃ r ∈ regions, ∃ e, http (some r.bbox) = Except.error e) :
    ∃ e, computeRisks http model regions = Except.error e := by
  induction regions with
  | nil => rcases h with ⟨r, hr, _⟩; cases hr
  | cons r rs ih =>
    rcases h with ⟨r', hr', e', he'⟩
    rcases List.mem_cons.mp hr' with hEq | hMem
    · subst hEq
      refine ⟨e', ?_⟩
      simp [computeRisks, fetch_events, he', Except.map, bind, Except.bind]
    · cases hHead : http (some r.bbox) with
      | error e => exact ⟨e, by simp [computeRisks, fetch_events, hHead, Except.map, bind, Except.bind]⟩
      | ok fs =>
        rcases ih ⟨r', hMem, e', he'⟩ with ⟨e, hTail⟩
        exact ⟨e, by simp [computeRisks, fetch_events, hHead, Except.map, hTail, bind, Except.bind]⟩

/-- If every region's catalog request succeeds, the per-province loop
returns a risk list, pairing each region whose fetch found no events
with risk 0. -/
theorem computeRisks_ok_of_all_ok
    (http : Option BBox → Except String (List RawFeature))
    (model : FeatureVector → ℚ) (regions : List Region)
    (h : ∀ r ∈ regions, ∃ fs, http (some r.bbox) = Except.ok fs) :
    ∃ risks, computeRisks http model regions = Except.ok risks ∧
      List.Forall₂
        (fun r x => fetch_events http (some r.bbox) = Except.ok [] → x = 0)
        regions risks := by
  induction regions with
  | nil => exact ⟨[], rfl, List.Forall₂.nil⟩
  | cons r rs ih =>
    rcases h r (List.mem_cons_self r rs) with ⟨fs, hfs⟩
    rcases ih (fun r' hr' => h r' (List.mem_cons_of_mem r hr')) with ⟨risks, hok, hall⟩
    refine ⟨(if (parse_earthquake_data fs).isEmpty then 0
              else predict_risk model (parse_earthquake_data fs)) :: risks, ?_, ?_⟩
    · simp [computeRisks, fetch_events, hfs, Except.map, hok, bind, Except.bind, pure, Except.pure]
    · refine List.Forall₂.cons ?_ hall
      intro hEmpty
      have : parse_earthquake_data fs = [] := by
        simpa [fetch_events, hfs, Except.map] using hEmpty
      simp [this]

/-- `provs['risk'] = risks` does not change the name column. -/
theorem setRisks_names (regions : List Region) (risks : List ℚ)
    (h : regions.length = risks.length) :
    (setRisks regions risks).map Region.name = regions.map Region.name := by
  induction regions generalizing risks with
  | nil => simp [setRisks]
  | cons r rs ih =>
    cases risks with
    | nil => cases h
    | cons x xs =>
      simp only [setRisks, List.zipWith, List.map]
      exact congrArg _ (ih xs (by simpa using h))

/-- Transport a pairwise property of regions and risks to the updated
region list produced by `provs['risk'] = risks`: the updated region
carries exactly its paired risk. -/
theorem setRisks_forall₂ {P : Region → ℚ → Prop} {regions : List Region} {risks : List ℚ}
    (h : List.Forall₂ P regions risks) :
    List.Forall₂ (fun r r' => ∃ x, r'.risk = some x ∧ P r x) regions
      (setRisks regions risks) := by
  induction h with
  | nil => exact List.Forall₂.nil
  | @cons r x rs xs hP hext ih =>
    exact List.Forall₂.cons ⟨x, rfl, hP⟩ ih

/-- Evaluation helper: the fixture feature list parses to one event. -/
theorem parse_rawZero : parse_earthquake_data [rawZero] = [evZero] := by
  simp [parse_earthquake_data, List.filterMap, parseFeature, rawZero, evZero]

/-- Evaluation helper: the constant-1/2 classifier scores the fixture
event list at 50. -/
theorem predict_evZero : predict_risk constModel [evZero] = 50 := by
  simp [predict_risk, constModel, aggregate, mean, evZero]
  norm_num

/-- Evaluation helper: the two demo bounding boxes differ. -/
theorem bboxA_ne_bboxB : bboxA ≠ bboxB := by
  simp only [bboxA, bboxB, ne_eq, BBox.mk.injEq, not_and]
  intro h
  norm_num at h

/-! ## Claim theorems -/

/-- C2 (evidence of the code bug): from the initial state, a button click
starts one run (button disabled, one worker in flight); while that run is
in flight a further click is rejected, but a tick of the 10-minute timer
calls `start_analysis` unconditionally and a second concurrent worker is
launched against the shared province state. -/
theorem timer_tick_starts_second_concurrent_run :
    (step initState UiEvent.click).runningWorkers = 1 ∧
    (step initState UiEvent.click).analyzeBtnEnabled = false ∧
    step (step initState UiEvent.click) UiEvent.click = step initState UiEvent.click ∧
    (step (step initState UiEvent.click) UiEvent.timerTick).runningWorkers = 2 := by
  decide

/-- C3 (counterexample): on the empty event list the aggregation/scoring
operation `predict_risk` does return a value — exactly `0.0` — rather
than failing with an `EmptyInputError`. -/
theorem predict_risk_empty_returns_value : predict_risk constModel [] = 0 := by
  simp [predict_risk]

/-- C3 (amended): for the empty event list `predict_risk` returns `0.0`
for every classifier, raising no error: the empty case is short-circuited
before any aggregation happens. -/
theorem predict_risk_empty (model : FeatureVector → ℚ) : predict_risk model [] = 0 := by
  simp [predict_risk]

/-- C8: every run of the worker emits exactly one outcome — a single
error emission or a single result emission, never both and never more
than one of either. -/
theorem run_exactly_one_outcome (http : Option BBox → Except String (List RawFeature))
    (model : FeatureVector → ℚ) (provinces : List Region) :
    (∃ msg, (Worker.run http model provinces).1 = [Outcome.error msg]) ∨
    (∃ proba events out,
      (Worker.run http model provinces).1 = [Outcome.result proba events out]) := by
  cases hf : fetch_events http none with
  | error e => exact Or.inl ⟨"Hesaplama hatası: " ++ e, by simp [Worker.run, hf]⟩
  | ok events =>
    by_cases he : events.isEmpty
    · exact Or.inl ⟨"Belirtilen aralıkta deprem verisi bulunamadı.", by simp [Worker.run, hf, he]⟩
    · cases hc : computeRisks http model provinces with
      | error e =>
        exact Or.inl ⟨"Hesaplama hatası: " ++ e, by simp [Worker.run, hf, he, hc]⟩
      | ok risks =>
        exact Or.inr ⟨predict_risk model events, events, setRisks provinces risks,
          by simp [Worker.run, hf, he, hc]⟩

/-- C6: on a non-empty event list the aggregation step of `predict_risk`
produces the feature row in the fixed training order `mag, depth, nst,
gap, dmin, rms`; each field is the arithmetic mean of that field over the
input (so field times length recovers the field sum); and the row is
invariant under permutation of the input list. -/
theorem aggregate_fields_are_means (events events' : List Event)
    (hne : events ≠ []) (hperm : events.Perm events') :
    (aggregate events).toList =
      [mean (events.map Event.mag), mean (events.map Event.depth),
       mean (events.map Event.nst), mean (events.map Event.gap),
       mean (events.map Event.dmin), mean (events.map Event.rms)] ∧
    (aggregate events).mag * events.length = (events.map Event.mag).sum ∧
    (aggregate events).depth * events.length = (events.map Event.depth).sum ∧
    (aggregate events).nst * events.length = (events.map Event.nst).sum ∧
    (aggregate events).gap * events.length = (events.map Event.gap).sum ∧
    (aggregate events).dmin * events.length = (events.map Event.dmin).sum ∧
    (aggregate events).rms * events.length = (events.map Event.rms).sum ∧
    aggregate events = aggregate events' := by
  have hlen : ((events.length : ℚ)) ≠ 0 := by
    have : events.length ≠ 0 := fun h => hne (List.length_eq_zero.mp h)
    exact_mod_cast this
  have hmul : ∀ g : Event → ℚ,
      mean (events.map g) * events.length = (events.map g).sum := by
    intro g
    rw [mean, List.length_map]
    exact div_mul_cancel₀ _ hlen
  have hmean : ∀ g : Event → ℚ, mean (events.map g) = mean (events'.map g) := by
    intro g
    rw [mean, mean, (hperm.map g).sum_eq, List.length_map, List.length_map,
      hperm.length_eq]
  refine ⟨rfl, hmul Event.mag, hmul Event.depth, hmul Event.nst, hmul Event.gap,
    hmul Event.dmin, hmul Event.rms, ?_⟩
  simp only [aggregate, hmean Event.mag, hmean Event.depth, hmean Event.nst,
    hmean Event.gap, hmean Event.dmin, hmean Event.rms]

/-- C6 witness: the characterization at the two-event fixture list and
its transposition. -/
theorem aggregate_fields_are_means_witness :
    (aggregate [evFull, evBare]).toList =
      [mean ([evFull, evBare].map Event.mag), mean ([evFull, evBare].map Event.depth),
       mean ([evFull, evBare].map Event.nst), mean ([evFull, evBare].map Event.gap),
       mean ([evFull, evBare].map Event.dmin), mean ([evFull, evBare].map Event.rms)] ∧
    (aggregate [evFull, evBare]).mag * ([evFull, evBare] : List Event).length =
      ([evFull, evBare].map Event.mag).sum ∧
    (aggregate [evFull, evBare]).depth * ([evFull, evBare] : List Event).length =
      ([evFull, evBare].map Event.depth).sum ∧
    (aggregate [evFull, evBare]).nst * ([evFull, evBare] : List Event).length =
      ([evFull, evBare].map Event.nst).sum ∧
    (aggregate [evFull, evBare]).gap * ([evFull, evBare] : List Event).length =
      ([evFull, evBare].map Event.gap).sum ∧
    (aggregate [evFull, evBare]).dmin * ([evFull, evBare] : List Event).length =
      ([evFull, evBare].map Event.dmin).sum ∧
    (aggregate [evFull, evBare]).rms * ([evFull, evBare] : List Event).length =
      ([evFull, evBare].map Event.rms).sum ∧
    aggregate [evFull, evBare] = aggregate [evBare, evFull] :=
  aggregate_fields_are_means [evFull, evBare] [evBare, evFull] (by simp)
    (List.Perm.swap evBare evFull [])

/-- C7: when every classifier probability lies in [0, 1], `predict_risk`
returns the probability scaled by 100 on non-empty input, and every risk
value — the 0.0 default for the empty list included — lies in [0, 100]. -/
theorem predict_risk_scaled_and_bounded (model : FeatureVector → ℚ)
    (events : List Event) (h : ∀ v, 0 ≤ model v ∧ model v ≤ 1) :
    (events ≠ [] → predict_risk model events = model (aggregate events) * 100) ∧
    0 ≤ predict_risk model events ∧ predict_risk model events ≤ 100 := by
  obtain ⟨h0, h1⟩ := h (aggregate events)
  by_cases he : events = []
  · subst he
    exact ⟨fun hc => absurd rfl hc, by simp [predict_risk], by simp [predict_risk]⟩
  · have hb : events.isEmpty = false := by simp [List.isEmpty_eq_false, he]
    have hval : predict_risk model events = model (aggregate events) * 100 := by
      simp [predict_risk, hb]
    refine ⟨fun _ => hval, ?_, ?_⟩
    · rw [hval]
      exact mul_nonneg h0 (by norm_num)
    · rw [hval]
      calc model (aggregate events) * 100 ≤ 1 * 100 :=
            mul_le_mul_of_nonneg_right h1 (by norm_num)
        _ = 100 := by norm_num

/-- C7 witness: the bound at the constant-1/2 classifier and the fixture
event list. -/
theorem predict_risk_scaled_and_bounded_witness :
    (([evZero] : List Event) ≠ [] →
      predict_risk constModel [evZero] = constModel (aggregate [evZero]) * 100) ∧
    0 ≤ predict_risk constModel [evZero] ∧ predict_risk constModel [evZero] ≤ 100 :=
  predict_risk_scaled_and_bounded constModel [evZero]
    (fun _ => by constructor <;> norm_num [constModel])

/-- C9: a raw feature yields an event exactly when its magnitude is
present and its coordinate array has at least three components; the
parser keeps exactly the events of the well-formed features of a
response, skipping the rest without failing; and a well-formed feature's
event carries exactly the feature's magnitude, its third coordinate as
depth, and the UTC timestamp `time / 1000` seconds. -/
theorem parser_characterization (f : RawFeature) (fs : List RawFeature) :
    ((parseFeature f).isSome ↔ f.mag.isSome ∧ 3 ≤ f.coords.length) ∧
    (∀ ev, ev ∈ parse_earthquake_data fs ↔ ∃ g ∈ fs, parseFeature g = some ev) ∧
    (∀ m, f.mag = some m → ∀ h3 : 3 ≤ f.coords.length,
      ∃ ev, parseFeature f = some ev ∧ ev.mag = m ∧
        ev.depth = f.coords.get ⟨2, by omega⟩ ∧
        ev.time = (f.time : ℚ) / 1000) := by
  refine ⟨?_, ?_, ?_⟩
  · cases hm : f.mag with
    | none => simp [parseFeature, hm]
    | some m =>
      by_cases h3 : 3 ≤ f.coords.length <;> simp [parseFeature, hm, h3]
  · intro ev
    simp [parse_earthquake_data, List.mem_filterMap]
  · intro m hm h3
    exact ⟨{ time := (f.time : ℚ) / 1000, mag := m,
             depth := f.coords.get ⟨2, by omega⟩,
             nst := f.nst.getD 0, gap := f.gap.getD 0,
             dmin := f.dmin.getD 0, rms := f.rms.getD 0 },
           by simp [parseFeature, hm, h3], rfl, rfl, rfl⟩

/-- C9 witness: the characterization instantiated at the full fixture
feature. -/
theorem parser_characterization_witness :
    ∃ ev, parseFeature rawFull = some ev ∧ ev.mag = 5 ∧
      ev.depth = rawFull.coords.get ⟨2, by decide⟩ ∧
      ev.time = ((1700000000000 : ℤ) : ℚ) / 1000 :=
  (parser_characterization rawFull []).2.2 5 rfl (by decide)

/-- C10: a raw feature that has a magnitude and three coordinates still
parses into an event whichever of the ancillary fields `nst`, `gap`,
`dmin`, `rms` it lacks — the record is neither dropped nor an error —
and each field it lacks defaults to 0 in the event, that zero then
participating in the per-field arithmetic mean that feeds the
classifier. -/
theorem parse_defaults_feed_means (f : RawFeature) (m : ℚ) (hm : f.mag = some m)
    (h3 : 3 ≤ f.coords.length) :
    ∃ ev, parseFeature f = some ev ∧
      (f.nst = none → ev.nst = 0) ∧ (f.gap = none → ev.gap = 0) ∧
      (f.dmin = none → ev.dmin = 0) ∧ (f.rms = none → ev.rms = 0) ∧
      ∀ es : List Event,
        (f.nst = none → (aggregate (ev :: es)).nst = mean (0 :: es.map Event.nst)) ∧
        (f.gap = none → (aggregate (ev :: es)).gap = mean (0 :: es.map Event.gap)) ∧
        (f.dmin = none → (aggregate (ev :: es)).dmin = mean (0 :: es.map Event.dmin)) ∧
        (f.rms = none → (aggregate (ev :: es)).rms = mean (0 :: es.map Event.rms)) := by
  refine ⟨{ time := (f.time : ℚ) / 1000, mag := m,
            depth := f.coords.get ⟨2, by omega⟩,
            nst := f.nst.getD 0, gap := f.gap.getD 0,
            dmin := f.dmin.getD 0, rms := f.rms.getD 0 },
          by simp [parseFeature, hm, h3],
          fun h => by simp [h], fun h => by simp [h],
          fun h => by simp [h], fun h => by simp [h], ?_⟩
  intro es
  refine ⟨?_, ?_, ?_, ?_⟩ <;> intro h <;> simp [aggregate, h]

/-- C10 witness: a feature lacking only `nst` parses with `nst`
defaulted to 0 and that zero entering the `nst` mean, and the bare
fixture feature lacking all four ancillary fields parses with all four
defaulted to 0. -/
theorem parse_defaults_feed_means_witness :
    (∃ ev, parseFeature rawNoNst = some ev ∧ ev.nst = 0 ∧
      (aggregate [ev]).nst = mean [(0 : ℚ)]) ∧
    (∃ ev, parseFeature rawBare = some ev ∧
      ev.nst = 0 ∧ ev.gap = 0 ∧ ev.dmin = 0 ∧ ev.rms = 0) := by
  constructor
  · obtain ⟨ev, hp, hn, _, _, _, hmeans⟩ :=
      parse_defaults_feed_means rawNoNst 6 rfl (by decide)
    exact ⟨ev, hp, hn rfl, by simpa using (hmeans []).1 rfl⟩
  · obtain ⟨ev, hp, hn, hg, hd, hr, _⟩ :=
      parse_defaults_feed_means rawBare 3 rfl (by decide)
    exact ⟨ev, hp, hn rfl, hg rfl, hd rfl, hr rfl⟩

/-- C1 (counterexample): with province A's catalog request raising a
fetch error while the nationwide request and province B's request
succeed, the run does not complete the regional mapping with risk 0 for
A — its single emission is the run-level error. -/
theorem regional_fetch_failure_aborts_cex :
    (Worker.run httpFailA constModel [regionA, regionB]).1 =
      [Outcome.error ("Hesaplama hatası: " ++ "timeout")] ∧
    ∀ proba events out,
      Outcome.result proba events out ∉
        (Worker.run httpFailA constModel [regionA, regionB]).1 := by
  have h : (Worker.run httpFailA constModel [regionA, regionB]).1 =
      [Outcome.error ("Hesaplama hatası: " ++ "timeout")] := by
    simp [Worker.run, fetch_events, httpFailA, computeRisks, parse_rawZero,
      regionA, regionB, bind, Except.bind, Except.map]
  exact ⟨h, fun p ev o hmem => by rw [h] at hmem; simp at hmem⟩

/-- C1 (amended): a fetch failure for any one region aborts the whole
run — the exception propagates out of the per-province loop to the
run-level handler, which emits a single error and no regional mapping. -/
theorem run_fails_on_regional_fetch_error
    (http : Option BBox → Except String (List RawFeature))
    (model : FeatureVector → ℚ) (provinces : List Region)
    (hfail : ∃ r ∈ provinces, ∃ e, http (some r.bbox) = Except.error e) :
    ∃ msg, (Worker.run http model provinces).1 = [Outcome.error msg] := by
  cases hf : fetch_events http none with
  | error e => exact ⟨"Hesaplama hatası: " ++ e, by simp [Worker.run, hf]⟩
  | ok events =>
    by_cases he : events.isEmpty
    · exact ⟨"Belirtilen aralıkta deprem verisi bulunamadı.",
        by simp [Worker.run, hf, he]⟩
    · obtain ⟨e, hc⟩ := computeRisks_error_of_failing_region http model provinces hfail
      exact ⟨"Hesaplama hatası: " ++ e, by simp [Worker.run, hf, he, hc]⟩

/-- C1 witness: the amended claim applied to the fixture where province
A's request times out. -/
theorem run_fails_on_regional_fetch_error_witness :
    ∃ msg, (Worker.run httpFailA constModel [regionA, regionB]).1 =
      [Outcome.error msg] :=
  run_fails_on_regional_fetch_error httpFailA constModel [regionA, regionB]
    ⟨regionA, List.mem_cons_self regionA [regionB], "timeout",
      by simp [httpFailA, regionA]⟩

/-- C4 (counterexample): a successful run scores the only province at 50
and emits a mapping carrying that risk, yet afterwards the shared
`self.provinces` frame is unchanged and still carries no risk value: the
run wrote to a copy, and the shared Region set was mutated zero times,
not once. -/
theorem shared_regions_not_mutated_cex :
    (Worker.run httpAllOk constModel [regionA]).1 =
      [Outcome.result 50 [evZero] [{ name := "Adana", bbox := bboxA, risk := some 50 }]] ∧
    (Worker.run httpAllOk constModel [regionA]).2 = [regionA] ∧
    regionA.risk = none := by
  have h : Worker.run httpAllOk constModel [regionA] =
      ([Outcome.result 50 [evZero]
          [{ name := "Adana", bbox := bboxA, risk := some 50 }]], [regionA]) := by
    simp [Worker.run, fetch_events, httpAllOk, computeRisks, parse_rawZero,
      predict_evZero, setRisks, regionA, bind, Except.bind, Except.map, pure,
      Except.pure]
  exact ⟨by rw [h], by rw [h], rfl⟩

/-- C4 (amended): the run never writes to the shared province set — it is
returned unchanged in every branch — and when a success is emitted the
emitted mapping is the copied set with the fully computed risk list
attached in one assignment, so a reader only ever observes the complete
mapping. -/
theorem run_shared_untouched (http : Option BBox → Except String (List RawFeature))
    (model : FeatureVector → ℚ) (provinces : List Region) :
    (Worker.run http model provinces).2 = provinces ∧
    ∀ proba events out,
      (Worker.run http model provinces).1 = [Outcome.result proba events out] →
      ∃ risks, computeRisks http model provinces = Except.ok risks ∧
        out = setRisks provinces risks := by
  cases hf : fetch_events http none with
  | error e =>
    exact ⟨by simp [Worker.run, hf], fun p ev o hres => by
      simp [Worker.run, hf] at hres⟩
  | ok events =>
    by_cases he : events.isEmpty
    · exact ⟨by simp [Worker.run, hf, he], fun p ev o hres => by
        simp [Worker.run, hf, he] at hres⟩
    · cases hc : computeRisks http model provinces with
      | error e =>
        exact ⟨by simp [Worker.run, hf, he, hc], fun p ev o hres => by
          simp [Worker.run, hf, he, hc] at hres⟩
      | ok risks =>
        refine ⟨by simp [Worker.run, hf, he, hc], fun p ev o hres => ?_⟩
        simp only [Worker.run, hf, he, hc, Bool.false_eq_true, if_false,
          List.cons.injEq, and_true, Outcome.result.injEq] at hres
        exact ⟨risks, rfl, hres.2.2.symm⟩

/-- C4 witness: for the all-success fixture run, the shared set is
returned unchanged and the emitted mapping is the copy with the computed
risk column. -/
theorem run_shared_untouched_witness :
    (Worker.run httpAllOk constModel [regionA]).2 = [regionA] ∧
    ∃ risks, computeRisks httpAllOk constModel [regionA] = Except.ok risks ∧
      [({ name := "Adana", bbox := bboxA, risk := some 50 } : Region)] =
        setRisks [regionA] risks := by
  have H := run_shared_untouched httpAllOk constModel [regionA]
  refine ⟨H.1, H.2 50 [evZero]
    [{ name := "Adana", bbox := bboxA, risk := some 50 }] ?_⟩
  simp [Worker.run, fetch_events, httpAllOk, computeRisks, parse_rawZero,
    predict_evZero, setRisks, regionA, bind, Except.bind, Except.map, pure,
    Except.pure]

/-- C5 (counterexample): with province B's catalog request failing, the
run returns no region-to-risk mapping at all — the single emission is an
error, so no mapping with the input's key set exists for this
combination of succeeding and failing fetches. -/
theorem mapping_keyset_cex :
    (Worker.run httpFailB constModel [regionA, regionB]).1 =
      [Outcome.error ("Hesaplama hatası: " ++ "down")] ∧
    ∀ proba events out,
      Outcome.result proba events out ∉
        (Worker.run httpFailB constModel [regionA, regionB]).1 := by
  have h : (Worker.run httpFailB constModel [regionA, regionB]).1 =
      [Outcome.error ("Hesaplama hatası: " ++ "down")] := by
    simp [Worker.run, fetch_events, httpFailB, computeRisks, parse_rawZero,
      regionA, regionB, bboxA_ne_bboxB, bind, Except.bind, Except.map]
  exact ⟨h, fun p ev o hmem => by rw [h] at hmem; simp at hmem⟩

/-- C5 (amended): when every per-region fetch succeeds and the nationwide
fetch finds events, the emitted mapping's key list equals the input's keys in
order, and a region whose fetch found no events carries risk 0 rather
than being omitted. -/
theorem mapping_keyset_all_ok (http : Option BBox → Except String (List RawFeature))
    (model : FeatureVector → ℚ) (provinces : List Region) (events : List Event)
    (hnat : fetch_events http none = Except.ok events) (hne : events ≠ [])
    (hok : ∀ r ∈ provinces, ∃ fs, http (some r.bbox) = Except.ok fs) :
    ∃ proba out, (Worker.run http model provinces).1 =
        [Outcome.result proba events out] ∧
      out.map Region.name = provinces.map Region.name ∧
      List.Forall₂
        (fun r r2 => fetch_events http (some r.bbox) = Except.ok [] → r2.risk = some 0)
        provinces out := by
  obtain ⟨risks, hc, hall⟩ := computeRisks_ok_of_all_ok http model provinces hok
  have hlen := hall.length_eq
  have hb : events.isEmpty = false := by simp [List.isEmpty_eq_false, hne]
  refine ⟨predict_risk model events, setRisks provinces risks, ?_, ?_, ?_⟩
  · simp [Worker.run, hnat, hb, hc]
  · exact setRisks_names provinces risks hlen
  · refine (setRisks_forall₂ hall).imp fun a b hx hfetch => ?_
    obtain ⟨x, hx1, hx2⟩ := hx
    rw [hx1, hx2 hfetch]

/-- C5 witness: the amended claim at a fixture where province A's fetch
finds one event and province B's fetch succeeds with no events. -/
theorem mapping_keyset_all_ok_witness :
    ∃ proba out, (Worker.run httpMixed constModel [regionA, regionB]).1 =
        [Outcome.result proba [evZero] out] ∧
      out.map Region.name = [regionA, regionB].map Region.name ∧
      List.Forall₂
        (fun r r2 =>
          fetch_events httpMixed (some r.bbox) = Except.ok [] → r2.risk = some 0)
        [regionA, regionB] out := by
  refine mapping_keyset_all_ok httpMixed constModel [regionA, regionB] [evZero]
    (by simp [fetch_events, httpMixed, parse_rawZero, Except.map]) (by simp) ?_
  intro r hr
  rcases List.mem_cons.mp hr with h | h
  · exact ⟨[rawZero], by simp [h, httpMixed, regionA, bboxA_ne_bboxB]⟩
  · have h2 : r = regionB := by simpa using h
    exact ⟨[], by simp [h2, httpMixed, regionB]⟩

end DepremAnaliz
